import Mathlib

/-!
Shallow embedding of `src/homeworks/homework_03/hw3_csr_matrix.py`.

The Python class `CSRMatrix` keeps three parallel lists `row_ind`,
`column_ind`, `data` of equal length (every code path that builds or
mutates a matrix extends or shrinks all three together).  We model the
three parallel lists as one list of triples `entries`, where the k-th
element `(r, c, v)` stands for `(row_ind[k], column_ind[k], data[k])`.
Numeric values are modeled as exact rationals `ℚ` (Python integers and
exact fractions behave this way; `/` is exact rational division).

Python exceptions are modeled by `Option`: a function that can raise
returns `none` on the raising path.  `CSRMatrix.__truediv__` is the one
function that returns the Python value `None` without raising; it is
also modeled with `Option.none` and the distinction is recorded at its
definition.
-/

namespace HW3

abbrev Val := ℚ

/-- One stored triplet: (row index, column index, value). -/
abbrev Triple := Nat × Nat × Val

/-- The state of a Python `CSRMatrix` object: `shape` (a Python list/tuple of
ints, `[]` or `[rows, cols]`), the stored triplets, and the private `_nnz`
counter (`nnz` is a read-only property returning it). -/
structure CSRMatrix where
  shape : List Nat
  entries : List Triple
  _nnz : Int
deriving DecidableEq

/-- The `nnz` property getter (`return self._nnz`). -/
def CSRMatrix.nnz (m : CSRMatrix) : Int := m._nnz

/-- Python `zip(row_ind, column_ind, data)`: truncates to the shortest list. -/
def zip3 : List Nat → List Nat → List Val → List Triple
  | r :: rs, c :: cs, d :: ds => (r, c, d) :: zip3 rs cs ds
  | _, _, _ => []

/-- Constructor branch for a 3-element tuple `(row_ind, column_ind, data)`:
the three lists are stored as given, `shape` keeps its initial value `[]`,
and `_nnz = len(data)`. -/
def fromTuple (rs cs : List Nat) (ds : List Val) : CSRMatrix :=
  ⟨[], zip3 rs cs ds, (ds.length : Int)⟩

/-- `CSRMatrix((rows, cols, data))` applied to three equal-length lists, as
every arithmetic method does with the lists it just built; for equal-length
lists this is `fromTuple` with the triples pre-zipped. -/
def fromEntries (es : List Triple) : CSRMatrix :=
  ⟨[], es, (es.length : Int)⟩

/-- Reading cell (i, j) of the dense input array (assumed rectangular, as a
`np.ndarray` is). -/
def denseGet (D : List (List Val)) (i j : Nat) : Val :=
  ((D[i]?.getD [])[j]?.getD 0)

/-- Constructor branch for a dense `np.ndarray`: scan rows `0..shape[0]`,
columns `0..shape[1]` in row-major order, keep the nonzero cells, set
`shape` to the array's shape and `_nnz = len(data)`. -/
def fromDense (D : List (List Val)) : CSRMatrix :=
  let R := D.length
  let C := (D.head?.getD []).length
  let es := ((List.range R).map (fun i =>
      (List.range C).filterMap (fun j =>
        if denseGet D i j ≠ 0 then some (i, j, denseGet D i j) else none))).flatten
  ⟨[R, C], es, (es.length : Int)⟩

/-- Loop body of `__getitem__`: scan the zipped triplets, return the first
value whose (row, col) equals the key, else fall through to `return 0`. -/
def getEntries (r c : Nat) : List Triple → Val
  | [] => 0
  | (i, j, d) :: rest => if r = i ∧ c = j then d else getEntries r c rest

/-- `__getitem__`: `a[key]`. -/
def CSRMatrix.getItem (m : CSRMatrix) (key : Nat × Nat) : Val :=
  getEntries key.1 key.2 m.entries

/-- Loop of `__setitem__` over the triplets (index `k` is the position being
examined).  Returns the new triplet list together with the net change applied
to `_nnz`.  Branches, in source order:
* `key == (i, j)`: pop all three lists at `k` and decrement `_nnz` when
  `value == 0`, else overwrite `data[k]`;
* `(key[0] == i and key[1] > j) or key[0] > i` (the key is lexicographically
  *greater* than the triplet at `k`): insert the new triplet at position `k`
  and increment `_nnz` (the source's guard `k != len(self.data)` is always
  true there, since `zip` stops at `k = len(data) - 1`);
* otherwise continue with the next position;
* loop exhausted: append to all three lists, with no change to `_nnz`. -/
def setEntries (r c : Nat) (v : Val) : List Triple → List Triple × Int
  | [] => ([(r, c, v)], 0)
  | (i, j, d) :: rest =>
    if r = i ∧ c = j then
      if v = 0 then (rest, -1) else ((i, j, v) :: rest, 0)
    else if (r = i ∧ j < c) ∨ i < r then
      ((r, c, v) :: (i, j, d) :: rest, 1)
    else
      let p := setEntries r c v rest
      ((i, j, d) :: p.1, p.2)

/-- `__setitem__`: `a[key] = value`, mutating the triplet lists and `_nnz`
in place; `shape` is untouched. -/
def CSRMatrix.setItem (m : CSRMatrix) (key : Nat × Nat) (v : Val) : CSRMatrix :=
  let p := setEntries key.1 key.2 v m.entries
  { m with entries := p.1, _nnz := m._nnz + p.2 }

/-- The `action` string passed to `_op`: 'add', 'sub' or 'mul'. -/
inductive Action
  | add
  | sub
  | mul
deriving DecidableEq

/-- Tail of `_op` after the while loop: `if j < len(other.data) and action != 'mul'`,
drain the rest of `other` (values negated for 'sub', copied for 'add', nothing
for 'mul'). -/
def drainOther (act : Action) (bs : List Triple) : List Triple :=
  match act with
  | .add => bs
  | .sub => bs.map (fun b => (b.1, b.2.1, -b.2.2))
  | .mul => []

/-- Inner loop of `_op` for a fixed current triplet `a` of `self` (cursor `i`):
walks `other`'s remaining triplets (cursor `j`).  `mergeRest bs` resumes the
outer loop on `self`'s remaining triplets with `other`'s remaining `bs`.
Branches, in source order:
* `j == len(other.data)`: drain the rest of `self` (`action != 'mul'` only)
  and break;
* `other[j] < self[i]` in row-major order: emit `other[j]` ('add' as-is,
  'sub' negated, 'mul' nothing), advance `j`;
* equal coordinates: combine (`other + self`, `self - other`, `other * self`),
  skipping a zero sum/difference, advance both cursors;
* `other[j] > self[i]`: emit `self[i]` as-is ('mul' nothing), advance `i`. -/
def opMergeGo (act : Action) (a : Triple) (as : List Triple)
    (mergeRest : List Triple → List Triple) : List Triple → List Triple
  | [] => if act = .mul then [] else a :: as
  | b :: bs =>
    if b.1 < a.1 ∨ (b.1 = a.1 ∧ b.2.1 < a.2.1) then
      (match act with
       | .add => [(b.1, b.2.1, b.2.2)]
       | .sub => [(b.1, b.2.1, -b.2.2)]
       | .mul => []) ++ opMergeGo act a as mergeRest bs
    else if b.1 = a.1 ∧ b.2.1 = a.2.1 then
      (match act with
       | .add => if b.2.2 + a.2.2 = 0 then [] else [(b.1, b.2.1, b.2.2 + a.2.2)]
       | .sub => if a.2.2 - b.2.2 = 0 then [] else [(b.1, b.2.1, a.2.2 - b.2.2)]
       | .mul => [(b.1, b.2.1, b.2.2 * a.2.2)]) ++ mergeRest bs
    else
      (if act = .mul then [] else [a]) ++ mergeRest (b :: bs)

/-- `_op(self, other, action)`: the two-cursor coordinate merge over the two
triplet lists, returning the three result lists (as zipped triples).  The
while loop `while i < _len` with cursors `i` (over `self`) and `j` (over
`other`) is rendered as recursion on `self`'s triplet list, with `opMergeGo`
performing the steps that only advance `j`. -/
def opMerge (act : Action) : List Triple → List Triple → List Triple
  | [], bs => drainOther act bs
  | a :: as, bs => opMergeGo act a as (opMerge act as) bs

/-- `__add__`: `CSRMatrix(self._op(other, action='add'))`.  No shape check of
any kind is performed. -/
def csrAdd (A B : CSRMatrix) : CSRMatrix :=
  fromEntries (opMerge .add A.entries B.entries)

/-- `__sub__`: `CSRMatrix(self._op(other, action='sub'))`. -/
def csrSub (A B : CSRMatrix) : CSRMatrix :=
  fromEntries (opMerge .sub A.entries B.entries)

/-- `__mul__` (elementwise): `CSRMatrix(self._op(other, action='mul'))`. -/
def csrMul (A B : CSRMatrix) : CSRMatrix :=
  fromEntries (opMerge .mul A.entries B.entries)

/-- `__truediv__`: `a / alpha`.  When `alpha == 0` the source executes a bare
`return`, i.e. it silently returns the Python value `None` without raising;
that path is `none` here.  Otherwise a new matrix is built from the tuple
`(row_ind, column_ind, [i / alpha for i in data])`. -/
def csrTruediv (m : CSRMatrix) (α : Val) : Option CSRMatrix :=
  if α = 0 then none
  else some (fromEntries (m.entries.map (fun e => (e.1, e.2.1, e.2.2 / α))))

/-- `__rmul__`: `alpha * a`.  Zero scalar short-circuits to
`CSRMatrix(([], [], []))`; otherwise values are mapped to `value * alpha`. -/
def csrRmul (α : Val) (m : CSRMatrix) : CSRMatrix :=
  if α = 0 then fromEntries []
  else fromEntries (m.entries.map (fun e => (e.1, e.2.1, e.2.2 * α)))

/-- One `res[(row_1, column_2)] += data_1 * data_2` / `res[...] = ...` step on
the Python dict `res`, modeled as an insertion-ordered association list: an
existing key is updated in place, a new key is appended at the end. -/
def dictUpd : List ((Nat × Nat) × Val) → (Nat × Nat) → Val → List ((Nat × Nat) × Val)
  | [], k, v => [(k, v)]
  | (k', v') :: rest, k, v =>
    if k' = k then (k', v' + v) :: rest else (k', v') :: dictUpd rest k v

/-- Body of the inner accumulation loop of `__matmul__` for the current outer
triplet `a`: `if column_1 != row_2: continue`, else accumulate
`data_1 * data_2` under key `(row_1, column_2)`. -/
def matmulStepInner (a : Triple) (acc : List ((Nat × Nat) × Val)) (b : Triple) :
    List ((Nat × Nat) × Val) :=
  if a.2.1 = b.1 then dictUpd acc (a.1, b.2.1) (a.2.2 * b.2.2) else acc

/-- The nested accumulation loops of `__matmul__`: for every triplet of `self`
(outer) and every triplet of `other` (inner) with `column_1 == row_2`,
accumulate `data_1 * data_2` under key `(row_1, column_2)`. -/
def matmulAccum (ea eb : List Triple) : List ((Nat × Nat) × Val) :=
  ea.foldl (fun acc a => eb.foldl (matmulStepInner a) acc) []

/-- Emission loop of `__matmul__`: walk `res.items()` in dict (insertion)
order, skipping falsy (zero) accumulated values. -/
def matmulEntries (ea eb : List Triple) : List Triple :=
  (matmulAccum ea eb).filterMap (fun kv =>
    if kv.2 = 0 then none else some (kv.1.1, kv.1.2, kv.2))

/-- `__matmul__`: `a @ b`.  `self.shape[-1]` (resp. `other.shape[0]`) raises
`IndexError` when the shape list is empty; unequal dimensions raise
`ValueError`; both raising paths are `none`.  Otherwise the result is
`CSRMatrix((res_row, res_col, res_dat))`. -/
def csrMatmul (A B : CSRMatrix) : Option CSRMatrix :=
  match A.shape.getLast?, B.shape.head? with
  | some a, some b =>
    if a ≠ b then none
    else some (fromEntries (matmulEntries A.entries B.entries))
  | _, _ => none

/-- Assignment `dense_matrix[i, j] = data` on the dense grid (in-bounds use
only; out-of-bounds assignment is excluded before calling this). -/
def setCell (g : List (List Val)) (i j : Nat) (v : Val) : List (List Val) :=
  g.set i ((g[i]?.getD []).set j v)

/-- `np.zeros((R, C))` as a list of lists. -/
def zerosGrid (R C : Nat) : List (List Val) :=
  List.replicate R (List.replicate C 0)

/-- `to_dense`: allocates `np.zeros((row_ind[-1] + 1, column_ind[-1] + 1))` —
sized from the LAST stored row and column index, not from the declared
shape — then writes every triplet into its cell.  `row_ind[-1]` raises
`IndexError` on an empty matrix, and the numpy cell assignment raises
`IndexError` whenever some stored index falls outside the allocated grid;
both raising paths are `none`. -/
def CSRMatrix.toDense (m : CSRMatrix) : Option (List (List Val)) :=
  match m.entries.getLast? with
  | none => none
  | some last =>
    let R := last.1 + 1
    let C := last.2.1 + 1
    if m.entries.all (fun e => decide (e.1 < R) && decide (e.2.1 < C)) then
      some (m.entries.foldl (fun g e => setCell g e.1 e.2.1 e.2.2) (zerosGrid R C))
    else none

/-- Key (row, col) of a stored triplet. -/
def keyOf (e : Triple) : Nat × Nat := (e.1, e.2.1)

/-- Keys of a triplet list, in storage order. -/
def keysOf (es : List Triple) : List (Nat × Nat) := es.map keyOf

/-- The triplet list has no duplicate (row, col) pair. -/
abbrev KeysUnique (es : List Triple) : Prop := (keysOf es).Nodup

/-- Row-major strict order on triplet keys: row ascending, then column
ascending within a row. -/
def keyLtB (x y : Triple) : Bool :=
  decide (x.1 < y.1) || (decide (x.1 = y.1) && decide (x.2.1 < y.2.1))

/-- The triplet list is strictly sorted in row-major (row, col) order (which
also rules out duplicate keys). -/
def strictRowMajor : List Triple → Bool
  | [] => true
  | [_] => true
  | x :: y :: rest => keyLtB x y && strictRowMajor (y :: rest)

/-- Replace the `shape` attribute, leaving the stored triplets and `_nnz`
untouched. -/
def withShape (m : CSRMatrix) (s : List Nat) : CSRMatrix :=
  { m with shape := s }

/-- Contribution of one fixed triplet `a` of the left operand to coordinate
`k`: the sum of `v1 * v2` over the triplets `b` of the right operand with
`col1 = row2` and `(row1, col2) = k`. -/
def rowSum (a : Triple) (eb : List Triple) (k : Nat × Nat) : Val :=
  (eb.map (fun b =>
    if a.2.1 = b.1 ∧ k = (a.1, b.2.1) then a.2.2 * b.2.2 else 0)).sum

/-- The sum, over all pairs of one triplet `(row1, col1, v1)` of `ea` and one
triplet `(row2, col2, v2)` of `eb` with `col1 = row2` and `(row1, col2) = k`,
of `v1 * v2` — the accumulated value that matrix multiplication assigns to
coordinate `k`. -/
def matSum (ea eb : List Triple) (k : Nat × Nat) : Val :=
  (ea.map (fun a => rowSum a eb k)).sum

/-! Theorems. -/

/-- C1: the spec demands that `CSRMatrix(D).to_dense()` reproduce `D` with the
matrix's declared shape; the code instead allocates the dense array from the
LAST stored row and column index (`self.row_ind[-1] + 1`,
`self.column_ind[-1] + 1`).  Evaluated at the failing input
`D = [[1, 0], [0, 0]]`: the declared shape is 2 × 2, yet `to_dense` returns
the 1 × 1 array `[[1]]`, so the round-trip fails. -/
theorem c1_to_dense_wrong_shape :
    (fromDense [[1, 0], [0, 0]]).shape = [2, 2] ∧
    (fromDense [[1, 0], [0, 0]]).toDense = some [[1]] := by
  decide

/-- C2: `__setitem__` inserts the new triplet in front of the first stored
triplet whose key is lexicographically SMALLER than the new key (the
comparison is reversed), so a single in-bounds assignment on a strictly
row-major-sorted matrix leaves the triplet list unsorted — and here even with
a duplicate (1, 1) key.  Evaluated at the failing input: the matrix of
`[[5, 0], [0, 2]]` (entries `[(0,0,5), (1,1,2)]`, strictly sorted) after
`a[1, 1] = 7`. -/
theorem c2_setitem_breaks_order :
    strictRowMajor (fromDense [[5, 0], [0, 2]]).entries = true ∧
    ((fromDense [[5, 0], [0, 2]]).setItem (1, 1) 7).entries =
      [(1, 1, 7), (0, 0, 5), (1, 1, 2)] ∧
    strictRowMajor ((fromDense [[5, 0], [0, 2]]).setItem (1, 1) 7).entries = false ∧
    ¬ KeysUnique ((fromDense [[5, 0], [0, 2]]).setItem (1, 1) 7).entries := by
  decide

/-- C3: when `__setitem__` falls through its loop (in particular on an empty
matrix) it appends the new triplet to all three lists WITHOUT incrementing
`_nnz`, so `nnz == len(data)` is broken by one public operation.  Evaluated at
the failing input: zero 1 × 1 matrix, then `a[0, 0] = 5`; afterwards `nnz` is
still 0 while one triplet is stored. -/
theorem c3_nnz_desyncs :
    ((fromDense [[0]]).setItem (0, 0) 5).nnz = 0 ∧
    ((fromDense [[0]]).setItem (0, 0) 5).entries.length = 1 := by
  decide

/-- C6: assigning 0 to an absent cell is claimed to be a no-op, but the
fall-through append path of `__setitem__` does not test the value, so a
triplet with value 0 is stored.  Evaluated at the failing input: zero 1 × 1
matrix, then `a[0, 0] = 0`. -/
theorem c6_set_absent_zero_inserts :
    ((fromDense [[0]]).setItem (0, 0) 0).entries = [(0, 0, 0)] ∧
    (fromDense [[0]]).entries = [] := by
  decide

/-- C8: dividing by the exact scalar 0 is claimed to fail with a
division-by-zero error; the code instead executes a bare `return`, silently
producing the Python value `None` (modeled as `none`, the function never
raises).  Evaluated at the failing input `CSRMatrix([[5]]) / 0`. -/
theorem c8_truediv_zero_returns_no_value :
    csrTruediv (fromDense [[5]]) 0 = none := by
  decide

/-- C4 counterexample: two matrices of different declared shapes (1 × 1 and
2 × 2) for which `A + B` and `A - B` raise nothing and return ordinary result
matrices, refuting the claim that mismatched shapes fail with a
shape-mismatch error and produce no result. -/
theorem c4_counterexample :
    (fromDense [[5]]).shape ≠ (fromDense [[1, 0], [0, 0]]).shape ∧
    csrAdd (fromDense [[5]]) (fromDense [[1, 0], [0, 0]]) = fromEntries [(0, 0, 6)] ∧
    csrSub (fromDense [[5]]) (fromDense [[1, 0], [0, 0]]) = fromEntries [(0, 0, 4)] := by
  refine ⟨by decide, ?_, ?_⟩ <;>
    norm_num [csrAdd, csrSub, fromDense, fromEntries, denseGet, opMerge, opMergeGo,
      drainOther, List.range_succ]

/-- C4 (amended): `__add__` and `__sub__` perform no shape validation at all —
they read only the triplet lists, so replacing either operand's shape by any
other shape (in particular a mismatched one) leaves the result unchanged, and
a result matrix is always produced; operands are never mutated (all
operations here are pure). -/
theorem c4_add_sub_ignore_shapes (A B : CSRMatrix) (s t : List Nat) :
    csrAdd (withShape A s) (withShape B t) = csrAdd A B ∧
    csrSub (withShape A s) (withShape B t) = csrSub A B := by
  cases A
  cases B
  exact ⟨rfl, rfl⟩

/-- Helper: merging a triplet list with itself under 'sub' cancels every
position (the two cursors advance in lockstep and every difference is 0). -/
theorem opMerge_sub_self (es : List Triple) : opMerge .sub es es = [] := by
  induction es with
  | nil => rfl
  | cons e es ih =>
    simp [opMerge, opMergeGo, Nat.lt_irrefl, sub_self, ih]

/-- C7 counterexample: for the 1 × 1 matrix of `[[5]]`, `A - A` is built by
`CSRMatrix((row, col, data))`, whose constructor branch leaves `shape = []`,
so the result's shape is NOT A's shape `[1, 1]`, refuting the claim's "has
the same shape as A". -/
theorem c7_counterexample :
    (csrSub (fromDense [[5]]) (fromDense [[5]])).shape ≠ (fromDense [[5]]).shape := by
  decide

/-- C7 (amended): for every matrix A, `A - A` stores no triplets and has
`nnz = 0`, but its shape is the empty list `[]` (the tuple-constructor
default), not A's shape. -/
theorem c7_sub_self_empty (A : CSRMatrix) :
    csrSub A A = fromEntries [] ∧ (csrSub A A).nnz = 0 ∧
    (csrSub A A).entries = [] ∧ (csrSub A A).shape = [] := by
  simp [csrSub, opMerge_sub_self, fromEntries, CSRMatrix.nnz]

/-- Helper: the `__getitem__` scan returns the value of a stored triplet with
the searched key, provided keys are unique. -/
theorem getEntries_eq_of_mem (r c : Nat) (v : Val) (es : List Triple)
    (hu : KeysUnique es) (hm : (r, c, v) ∈ es) : getEntries r c es = v := by
  induction es with
  | nil => cases hm
  | cons e es ih =>
    obtain ⟨i, j, d⟩ := e
    rcases List.mem_cons.mp hm with he | ht
    · obtain ⟨h1, h2, h3⟩ := Prod.mk.injEq .. ▸ he
      simp_all [getEntries]
    · by_cases hk : r = i ∧ c = j
      · exfalso
        have hd : (r, c) ∈ keysOf es := List.mem_map_of_mem keyOf ht
        have hh : keyOf (i, j, d) ∉ keysOf es := (List.nodup_cons.mp hu).1
        apply hh
        have he : keyOf (i, j, d) = (r, c) := by simp [keyOf, hk.1, hk.2]
        rw [he]
        exact hd
      · have := (List.nodup_cons.mp hu).2
        simp [getEntries, hk]
        exact ih this ht

/-- Helper: the `__getitem__` scan falls through to `return 0` when no stored
triplet has the searched key. -/
theorem getEntries_eq_zero (r c : Nat) (es : List Triple)
    (h : (r, c) ∉ keysOf es) : getEntries r c es = 0 := by
  induction es with
  | nil => rfl
  | cons e es ih =>
    obtain ⟨i, j, d⟩ := e
    simp only [keysOf, keyOf, List.map_cons, List.mem_cons, not_or] at h
    have hk : ¬(r = i ∧ c = j) := by
      rintro ⟨h1, h2⟩
      exact h.1 (by simp [h1, h2])
    simp only [getEntries, if_neg hk]
    exact ih (by simpa [keysOf, keyOf] using h.2)

/-- C10: `__getitem__` is a plain linear scan with equality tests only: it
terminates and returns a value for every coordinate pair (in particular for
out-of-bounds coordinates — there is no bounds check and no raising path,
which the totality of `getEntries` renders): the stored value when a triplet
with exactly that (row, col) exists (keys unique), and 0 otherwise. -/
theorem c10_getitem_total_lookup (m : CSRMatrix) (r c : Nat)
    (hu : KeysUnique m.entries) :
    (∀ v, (r, c, v) ∈ m.entries → m.getItem (r, c) = v) ∧
    ((r, c) ∉ keysOf m.entries → m.getItem (r, c) = 0) :=
  ⟨fun v hv => getEntries_eq_of_mem r c v m.entries hu hv,
   fun h => getEntries_eq_zero r c m.entries h⟩

/-- Witness for C10 at the matrix of `[[0, 3]]`: the stored cell (0, 1) reads
back 3 and the (far out-of-bounds) cell (5, 7) reads back 0. -/
theorem c10_getitem_total_lookup_witness :
    KeysUnique (fromDense [[0, 3]]).entries ∧
    (fromDense [[0, 3]]).getItem (0, 1) = 3 ∧
    (fromDense [[0, 3]]).getItem (5, 7) = 0 :=
  ⟨by decide,
   (c10_getitem_total_lookup (fromDense [[0, 3]]) 0 1 (by decide)).1 3 (by decide),
   (c10_getitem_total_lookup (fromDense [[0, 3]]) 5 7 (by decide)).2 (by decide)⟩

/-- C9: the 3-tuple constructor branch never touches `self.shape`, so a
tuple-built matrix keeps the initial `shape = []`; since every arithmetic
operator builds its result through `CSRMatrix((rows, cols, data))`, every
result of `+`, `-`, elementwise `*`, `@`, scalar multiplication and scalar
division has shape `[]`, whatever the operands' shapes. -/
theorem c9_results_have_empty_shape (rs cs : List Nat) (ds : List Val)
    (A B M N : CSRMatrix) (α : Val)
    (hM : csrMatmul A B = some M) (hN : csrTruediv A α = some N) :
    (fromTuple rs cs ds).shape = [] ∧
    (csrAdd A B).shape = [] ∧ (csrSub A B).shape = [] ∧ (csrMul A B).shape = [] ∧
    (csrRmul α A).shape = [] ∧ M.shape = [] ∧ N.shape = [] := by
  refine ⟨rfl, rfl, rfl, rfl, ?_, ?_, ?_⟩
  · by_cases h : α = 0 <;> simp [csrRmul, h, fromEntries]
  · rcases hA : A.shape.getLast? with _ | a
    · rw [csrMatmul, hA] at hM
      exact Option.noConfusion hM
    · rcases hB : B.shape.head? with _ | b
      · rw [csrMatmul, hA, hB] at hM
        exact Option.noConfusion hM
      · rw [csrMatmul, hA, hB] at hM
        have hM' : (if a ≠ b then (none : Option CSRMatrix)
            else some (fromEntries (matmulEntries A.entries B.entries))) = some M := hM
        by_cases hab : a ≠ b
        · rw [if_pos hab] at hM'
          exact Option.noConfusion hM'
        · rw [if_neg hab] at hM'
          injection hM' with h2
          rw [← h2]
          rfl
  · have hN' : (if α = 0 then (none : Option CSRMatrix)
        else some (fromEntries (A.entries.map fun e => (e.1, e.2.1, e.2.2 / α)))) = some N := hN
    by_cases h : α = 0
    · rw [if_pos h] at hN'
      exact Option.noConfusion hN'
    · rw [if_neg h] at hN'
      injection hN' with h2
      rw [← h2]
      rfl

/-- Witness for C9: a concrete matrix product and scalar division whose
results both carry the empty shape. -/
theorem c9_results_have_empty_shape_witness :
    csrMatmul (fromDense [[2]]) (fromDense [[3]]) = some (fromEntries [(0, 0, 6)]) ∧
    csrTruediv (fromDense [[2]]) 2 = some (fromEntries [(0, 0, 1)]) ∧
    (fromEntries [((0 : Nat), (0 : Nat), (6 : Val))]).shape = [] ∧
    (fromEntries [((0 : Nat), (0 : Nat), (1 : Val))]).shape = [] := by
  have hM : csrMatmul (fromDense [[2]]) (fromDense [[3]]) =
      some (fromEntries [(0, 0, 6)]) := by
    have h1 : csrMatmul (fromDense [[2]]) (fromDense [[3]]) =
        some (fromEntries (matmulEntries (fromDense [[2]]).entries
          (fromDense [[3]]).entries)) := rfl
    have hA : (fromDense [[2]]).entries = [(0, 0, 2)] := by decide
    have hB : (fromDense [[3]]).entries = [(0, 0, 3)] := by decide
    rw [h1, hA, hB]
    norm_num [matmulEntries, matmulAccum, matmulStepInner, dictUpd]
    decide
  have hN : csrTruediv (fromDense [[2]]) 2 = some (fromEntries [(0, 0, 1)]) := by
    have hA : (fromDense [[2]]).entries = [(0, 0, 2)] := by decide
    norm_num [csrTruediv, hA]
  exact ⟨hM, hN,
    (c9_results_have_empty_shape [] [] [] (fromDense [[2]]) (fromDense [[3]])
      (fromEntries [(0, 0, 6)]) (fromEntries [(0, 0, 1)]) 2 hM hN).2.2.2.2.2.1,
    (c9_results_have_empty_shape [] [] [] (fromDense [[2]]) (fromDense [[3]])
      (fromEntries [(0, 0, 6)]) (fromEntries [(0, 0, 1)]) 2 hM hN).2.2.2.2.2.2⟩

/-- First-match lookup in the insertion-ordered accumulator (0 when the key is
absent); proof-layer view of the Python dict `res`. -/
def dval : List ((Nat × Nat) × Val) → (Nat × Nat) → Val
  | [], _ => 0
  | (k', v') :: rest, k => if k' = k then v' else dval rest k

/-- Helper: a `dictUpd` adds `v` to the looked-up value of its key and leaves
every other key's value unchanged. -/
theorem dval_dictUpd (acc : List ((Nat × Nat) × Val)) (k' k : Nat × Nat) (v : Val) :
    dval (dictUpd acc k' v) k = dval acc k + if k = k' then v else 0 := by
  induction acc with
  | nil =>
    by_cases h : k' = k
    · subst h
      simp [dictUpd, dval]
    · simp [dictUpd, dval, h, Ne.symm h]
  | cons p rest ih =>
    obtain ⟨q, w⟩ := p
    by_cases h1 : q = k'
    · subst h1
      by_cases h2 : q = k
      · subst h2
        simp [dictUpd, dval]
      · simp [dictUpd, dval, h2, Ne.symm h2]
    · by_cases h2 : q = k
      · subst h2
        simp [dictUpd, dval, h1, Ne.symm h1]
      · simp [dictUpd, dval, h1, h2, ih]

/-- Helper: effect of the inner accumulation loop on the looked-up value of an
arbitrary key. -/
theorem dval_foldl_inner (a : Triple) (eb : List Triple)
    (acc : List ((Nat × Nat) × Val)) (k : Nat × Nat) :
    dval (eb.foldl (matmulStepInner a) acc) k = dval acc k + rowSum a eb k := by
  induction eb generalizing acc with
  | nil => simp [rowSum]
  | cons b eb ih =>
    rw [List.foldl_cons, ih]
    unfold matmulStepInner
    by_cases h : a.2.1 = b.1
    · rw [if_pos h, dval_dictUpd]
      simp [rowSum, h]
      ring
    · rw [if_neg h]
      simp [rowSum, h]

/-- Helper: effect of the full nested accumulation on the looked-up value of
an arbitrary key. -/
theorem dval_foldl_outer (ea eb : List Triple)
    (acc : List ((Nat × Nat) × Val)) (k : Nat × Nat) :
    dval (ea.foldl (fun acc a => eb.foldl (matmulStepInner a) acc) acc) k =
      dval acc k + matSum ea eb k := by
  induction ea generalizing acc with
  | nil => simp [matSum]
  | cons a ea ih =>
    rw [List.foldl_cons, ih, dval_foldl_inner]
    simp [matSum]
    ring

/-- Helper: the accumulator's value at key `k` is exactly the spec sum. -/
theorem dval_matmulAccum (ea eb : List Triple) (k : Nat × Nat) :
    dval (matmulAccum ea eb) k = matSum ea eb k := by
  rw [matmulAccum, dval_foldl_outer]
  simp [dval]

/-- Helper: keys after a `dictUpd` — unchanged for a present key, the new key
appended for an absent one. -/
theorem keys_dictUpd (acc : List ((Nat × Nat) × Val)) (k : Nat × Nat) (v : Val) :
    (dictUpd acc k v).map Prod.fst =
      if k ∈ acc.map Prod.fst then acc.map Prod.fst else acc.map Prod.fst ++ [k] := by
  induction acc with
  | nil => simp [dictUpd]
  | cons p rest ih =>
    obtain ⟨q, w⟩ := p
    by_cases h : q = k
    · subst h
      simp [dictUpd]
    · by_cases h2 : k ∈ rest.map Prod.fst <;>
        simp [dictUpd, h, Ne.symm h, h2, ih]

/-- Helper: `dictUpd` preserves distinctness of the accumulator's keys. -/
theorem nodup_keys_dictUpd (acc : List ((Nat × Nat) × Val)) (k : Nat × Nat) (v : Val)
    (h : (acc.map Prod.fst).Nodup) : ((dictUpd acc k v).map Prod.fst).Nodup := by
  rw [keys_dictUpd]
  by_cases hk : k ∈ acc.map Prod.fst
  · rwa [if_pos hk]
  · rw [if_neg hk]
    simp [List.nodup_append, h, hk]

/-- Helper: the inner accumulation loop preserves key distinctness. -/
theorem nodup_keys_inner (a : Triple) (eb : List Triple)
    (acc : List ((Nat × Nat) × Val)) (h : (acc.map Prod.fst).Nodup) :
    ((eb.foldl (matmulStepInner a) acc).map Prod.fst).Nodup := by
  induction eb generalizing acc with
  | nil => exact h
  | cons b eb ih =>
    rw [List.foldl_cons]
    apply ih
    unfold matmulStepInner
    by_cases hc : a.2.1 = b.1
    · rw [if_pos hc]
      exact nodup_keys_dictUpd _ _ _ h
    · rwa [if_neg hc]

/-- Helper: the matmul accumulator has pairwise-distinct keys. -/
theorem nodup_keys_matmulAccum (ea eb : List Triple) :
    ((matmulAccum ea eb).map Prod.fst).Nodup := by
  rw [matmulAccum]
  generalize hacc : ([] : List ((Nat × Nat) × Val)) = acc
  have h : (acc.map Prod.fst).Nodup := by rw [← hacc]; simp
  clear hacc
  induction ea generalizing acc with
  | nil => exact h
  | cons a ea ih =>
    rw [List.foldl_cons]
    exact ih _ (nodup_keys_inner a eb acc h)

/-- Helper: with distinct keys, a stored pair is the first-match lookup. -/
theorem dval_of_mem (acc : List ((Nat × Nat) × Val)) (k : Nat × Nat) (v : Val)
    (h : (acc.map Prod.fst).Nodup) (hm : (k, v) ∈ acc) : dval acc k = v := by
  induction acc with
  | nil => cases hm
  | cons p rest ih =>
    obtain ⟨q, w⟩ := p
    rcases List.mem_cons.mp hm with he | ht
    · obtain ⟨h1, h2⟩ := Prod.mk.injEq .. ▸ he
      simp [dval, h1.symm, h2]
    · have hq : ¬ q = k := by
        intro hqk
        subst hqk
        have : q ∈ rest.map Prod.fst :=
          List.mem_map_of_mem Prod.fst ht
        exact (List.nodup_cons.mp h).1 this
      simp only [dval, if_neg hq]
      exact ih (List.nodup_cons.mp h).2 ht

/-- Helper: a nonzero first-match lookup value is stored in the accumulator. -/
theorem mem_of_dval (acc : List ((Nat × Nat) × Val)) (k : Nat × Nat) (v : Val)
    (h : dval acc k = v) (hv : v ≠ 0) : (k, v) ∈ acc := by
  induction acc with
  | nil => exact absurd h.symm hv
  | cons p rest ih =>
    obtain ⟨q, w⟩ := p
    by_cases hq : q = k
    · subst hq
      simp only [dval, if_pos rfl] at h
      subst h
      exact List.mem_cons_self _ _
    · simp only [dval, if_neg hq] at h
      exact List.mem_cons_of_mem _ (ih h)

/-- C5 counterexample: for A built from `[[1, 1]]` and B from
`[[0, 1], [1, 0]]` (compatible 1×2 by 2×2 shapes), `A @ B` succeeds but emits
its triplets in dict insertion order `[(0, 1, 1), (0, 0, 1)]` — NOT sorted in
row-major (row, col) order — refuting the sortedness part of the claim. -/
theorem c5_counterexample :
    csrMatmul (fromDense [[1, 1]]) (fromDense [[0, 1], [1, 0]]) =
      some (fromEntries [(0, 1, 1), (0, 0, 1)]) ∧
    strictRowMajor (fromEntries
      [((0 : Nat), (1 : Nat), (1 : Val)), (0, 0, 1)]).entries = false := by
  constructor
  · have h1 : csrMatmul (fromDense [[1, 1]]) (fromDense [[0, 1], [1, 0]]) =
        some (fromEntries (matmulEntries (fromDense [[1, 1]]).entries
          (fromDense [[0, 1], [1, 0]]).entries)) := rfl
    have hA : (fromDense [[1, 1]]).entries = [(0, 0, 1), (0, 1, 1)] := by decide
    have hB : (fromDense [[0, 1], [1, 0]]).entries = [(0, 1, 1), (1, 0, 1)] := by decide
    rw [h1, hA, hB]
    norm_num [matmulEntries, matmulAccum, matmulStepInner, dictUpd]
    decide
  · decide

/-- C5 (amended): when A's declared column count equals B's declared row
count, `A @ B` succeeds and its stored triplets are exactly the coordinate
pairs `(row1, col2)` whose accumulated sum of `v1 * v2` over the triplet pairs
with `col1 = row2` is nonzero, each carrying that sum — but the emitted
triplet list is in accumulator insertion order (first contribution first),
not necessarily row-major sorted; when the two dimensions differ, `A @ B`
fails with an error. -/
theorem c5_matmul_entries_spec (A B : CSRMatrix) (a b : Nat)
    (ha : A.shape.getLast? = some a) (hb : B.shape.head? = some b) :
    (a ≠ b → csrMatmul A B = none) ∧
    (a = b →
      csrMatmul A B = some (fromEntries (matmulEntries A.entries B.entries)) ∧
      ∀ r c v, ((r, c, v) ∈ (fromEntries (matmulEntries A.entries B.entries)).entries ↔
        (v = matSum A.entries B.entries (r, c) ∧ v ≠ 0))) := by
  constructor
  · intro hne
    rw [csrMatmul, ha, hb]
    show (if a ≠ b then (none : Option CSRMatrix)
      else some (fromEntries (matmulEntries A.entries B.entries))) = none
    rw [if_pos hne]
  · intro he
    subst he
    have hok : csrMatmul A B = some (fromEntries (matmulEntries A.entries B.entries)) := by
      rw [csrMatmul, ha, hb]
      show (if a ≠ a then (none : Option CSRMatrix)
        else some (fromEntries (matmulEntries A.entries B.entries))) = _
      rw [if_neg (fun hh : a ≠ a => hh rfl)]
    refine ⟨hok, ?_⟩
    intro r c v
    show (r, c, v) ∈ matmulEntries A.entries B.entries ↔ _
    rw [matmulEntries]
    constructor
    · intro hmem
      rcases List.mem_filterMap.mp hmem with ⟨kw, hin, hf⟩
      obtain ⟨⟨k1, k2⟩, w⟩ := kw
      by_cases hw : w = 0
      · subst hw
        simp at hf
      · simp only [hw, if_false, ite_false] at hf
        injection hf with hf2
        injection hf2 with e1 e2
        injection e2 with e3 e4
        subst e1
        subst e3
        subst e4
        refine ⟨?_, hw⟩
        rw [← dval_matmulAccum]
        exact (dval_of_mem _ _ _ (nodup_keys_matmulAccum A.entries B.entries) hin).symm
    · rintro ⟨hv, hv0⟩
      have hd : dval (matmulAccum A.entries B.entries) (r, c) = v := by
        rw [dval_matmulAccum]
        exact hv.symm
      refine List.mem_filterMap.mpr ⟨((r, c), v), mem_of_dval _ _ _ hd hv0, ?_⟩
      show (if v = 0 then none else some ((r, c).1, (r, c).2, v)) = some (r, c, v)
      rw [if_neg hv0]

/-- Witness for C5 at the compatible pair from the counterexample: the product
succeeds and its entry `(0, 0, 1)` satisfies the accumulated-sum
characterization. -/
theorem c5_matmul_entries_spec_witness :
    csrMatmul (fromDense [[1, 1]]) (fromDense [[0, 1], [1, 0]]) =
      some (fromEntries (matmulEntries (fromDense [[1, 1]]).entries
        (fromDense [[0, 1], [1, 0]]).entries)) ∧
    ((0, 0, (1 : Val)) ∈ (fromEntries (matmulEntries (fromDense [[1, 1]]).entries
        (fromDense [[0, 1], [1, 0]]).entries)).entries ↔
      ((1 : Val) = matSum (fromDense [[1, 1]]).entries
        (fromDense [[0, 1], [1, 0]]).entries (0, 0) ∧ (1 : Val) ≠ 0)) :=
  ⟨((c5_matmul_entries_spec (fromDense [[1, 1]]) (fromDense [[0, 1], [1, 0]]) 2 2
      (by decide) (by decide)).2 rfl).1,
   ((c5_matmul_entries_spec (fromDense [[1, 1]]) (fromDense [[0, 1], [1, 0]]) 2 2
      (by decide) (by decide)).2 rfl).2 0 0 1⟩

end HW3
